import Mathlib

/-!
Verification of the codesearch front-ends (cindex, csearch, cgrep, cdump)
against their natural-language specification.  The definitions below are a
shallow embedding of the Go sources: cmd/csearch/csearch.go, the Windows
mmap helper bundled with it, the cgrep main bundled with cmd/cdump/cdump.go,
and the cindex main program.  Internals of the regexp.Grep driver are not
part of the sources; where a claim needs them they are modelled from the
specification and marked as such.
-/

namespace Codesearch

/-- Modelled from the spec: the observable state of the regexp.Grep driver
(the regexp package itself is absent from the sources; only its callers are
present).  Per the spec, the driver exposes Match (any match emitted), Done
(global limit reached) and the global print budget set by -m via
LimitPrintCount (0 = unlimited).  A Grep is a value: assigning it copies the
whole state. -/
structure Grep where
  maxCount : Nat
  printed : Nat
  Match : Bool
  Done : Bool
deriving DecidableEq, Repr

/-- Modelled from the spec: emitting one matching line increments the global
print count, records that a match was emitted, and trips Done when the
global -m budget is exhausted. -/
def Grep.printLine (g : Grep) : Grep :=
  { g with
    printed := g.printed + 1
    Match := true
    Done := g.Done || (decide (0 < g.maxCount) && decide (g.maxCount ≤ g.printed + 1)) }

/-- Modelled from the spec: the driver observes Done at line boundaries;
a file is abstracted to its number of matching lines. -/
def Grep.scanLines : Grep → Nat → Grep
  | g, 0 => g
  | g, n + 1 => if g.Done then g else Grep.scanLines g.printLine n

/-- Modelled from the spec: Grep.File streams one file and prints its
matching lines, observing Done at each line boundary. -/
def Grep.File (g : Grep) (matchingLines : Nat) : Grep :=
  g.scanLines matchingLines

/-- csearch.go lines 171-181: the -1 (single worker) loop.  Each candidate
file is processed in order; after each file the loop breaks when g.Done is
set ("short circuit here too"). -/
def runOneThread : Grep → List Nat → Grep
  | g, [] => g
  | g, f :: rest =>
    let g2 := g.File f
    if g2.Done then g2 else runOneThread g2 rest

/-- csearch.go lines 194-204: a worker goroutine holds its own value copy of
the configured Grep (pg := g) and calls File on every name it receives from
the channel until the channel closes; the loop never consults Done. -/
def runWorker (g : Grep) (files : List Nat) : Grep :=
  files.foldl Grep.File g

/-- csearch.go lines 182-214: the multi-worker mode.  The assignment lists
how the channel distributed the candidate files among the workers; every
worker starts from a fresh value copy of g. -/
def runMulti (g : Grep) (assignment : List (List Nat)) : List Grep :=
  assignment.map (runWorker g)

/-- Total number of matches printed across all workers of a multi-worker
run. -/
def totalPrinted (gs : List Grep) : Nat :=
  (gs.map Grep.printed).sum

/-- csearch.go lines 167-215 plus the package-level variable at line 82: the
value of the package-level matches variable when Main returns.  It is
assigned only in the -1 branch (line 181, matches = g.Match); the parallel
branch runs the workers on value copies and never assigns it, so it keeps
its zero value false. -/
def csearchMatches (oneThread : Bool) (g : Grep) (files : List Nat)
    (assignment : List (List Nat)) : Bool :=
  if oneThread then (runOneThread g files).Match
  else
    let _workers := runMulti g assignment
    false

/-- csearch.go lines 217-223: main exits 1 when matches is false, else 0. -/
def csearchExit (oneThread : Bool) (g : Grep) (files : List Nat)
    (assignment : List (List Nat)) : Nat :=
  if csearchMatches oneThread g files assignment then 0 else 1

/-- cgrep main (second file bundled in cmd/cdump/cdump.go), lines 145-155:
cgrep runs g.File over each argument file and exits 1 when g.Match is
false, falling off the end of main (exit 0) otherwise. -/
def cgrepExit (g : Grep) (files : List Nat) : Nat :=
  let g2 := files.foldl Grep.File g
  if g2.Match then 0 else 1

/-- csearch.go line 96: the usage-error test at the top of Main, taken
before anything else runs: wrong argument count, -l with -c, -l with a
positive -M, or -c with a positive -M. -/
def csearchUsageError (nargs : Nat) (lFlag cFlag : Bool)
    (maxCountPerFile : Int) : Bool :=
  decide (nargs ≠ 1) || (lFlag && cFlag) ||
    (lFlag && decide (0 < maxCountPerFile)) ||
    (cFlag && decide (0 < maxCountPerFile))

/-- The externally visible control events of csearch Main in program
order. -/
inductive CsearchEvent
  | exitUsage (code : Nat)
  | openIndex
  | runQuery
deriving DecidableEq, Repr

/-- csearch.go lines 85-145: on a usage error Main prints usage and exits
with status 2 (usage, lines 66-69) before the index is opened; otherwise it
proceeds to open the index and run the query. -/
def csearchControl (nargs : Nat) (lFlag cFlag : Bool)
    (maxCountPerFile : Int) : List CsearchEvent :=
  if csearchUsageError nargs lFlag cFlag maxCountPerFile then
    [CsearchEvent.exitUsage 2]
  else
    [CsearchEvent.openIndex, CsearchEvent.runQuery]

/-- csearch.go lines 117-120: the pattern handed to regexp.Compile is the
user regexp prefixed with the multi-line flag, and additionally with the
case-insensitive flag when -i is given. -/
def csearchCompiledPat (iFlag : Bool) (arg : String) : String :=
  let p := "(?m)" ++ arg
  if iFlag then "(?i)" ++ p else p

/-- cgrep main lines 136-139 (bundled in cmd/cdump/cdump.go): identical
pattern construction. -/
def cgrepCompiledPat (iFlag : Bool) (arg : String) : String :=
  let p := "(?m)" ++ arg
  if iFlag then "(?i)" ++ p else p

/-- Result of the Windows mmapFile helper: either the empty mapping taken
without any platform call, or a CreateFileMapping call recording the two
32-bit halves of the size it receives. -/
inductive MmapCall
  | emptyNoApiCall
  | createFileMapping (sizeHigh sizeLow : Nat)
deriving DecidableEq, Repr

/-- The Windows mmapFile helper (bundled after csearch.go), lines 240-270:
a zero-length file returns an empty mmapData without calling the platform
API; otherwise CreateFileMapping receives uint32(size>>32) and
uint32(size).  size is the non-negative int64 file size. -/
def mmapFileCall (size : Nat) : MmapCall :=
  if size = 0 then MmapCall.emptyNoApiCall
  else MmapCall.createFileMapping ((size >>> 32) % 2 ^ 32) (size % 2 ^ 32)

/-- Bytewise less-or-equal on character lists, the order sort.Strings uses
(Go compares strings lexicographically bytewise). -/
def charListLe : List Char → List Char → Bool
  | [], _ => true
  | _ :: _, [] => false
  | a :: as, b :: bs => if a = b then charListLe as bs else decide (a < b)

/-- The string order used by sort.Strings in cindex main, as a relation. -/
def strLeR (a b : String) : Prop :=
  charListLe a.data b.data = true

instance : DecidableRel strLeR := fun a b =>
  inferInstanceAs (Decidable (charListLe a.data b.data = true))

instance : IsTotal String strLeR where
  total a b := by
    have h : ∀ as bs : List Char, charListLe as bs = true ∨ charListLe bs as = true := by
      intro as
      induction as with
      | nil => intro bs; left; rfl
      | cons a as ih =>
        intro bs
        cases bs with
        | nil => right; rfl
        | cons b bs =>
          by_cases hab : a = b
          · subst hab
            simpa [charListLe] using ih bs
          · rcases lt_or_gt_of_ne hab with hlt | hgt
            · left; simp [charListLe, hab, hlt]
            · right; simp [charListLe, Ne.symm hab, hgt]
    exact h a.data b.data

instance : IsTrans String strLeR where
  trans a b c hab hbc := by
    have h : ∀ as bs cs : List Char, charListLe as bs = true →
        charListLe bs cs = true → charListLe as cs = true := by
      intro as
      induction as with
      | nil => intro bs cs _ _; rfl
      | cons x as ih =>
        intro bs cs h1 h2
        cases bs with
        | nil => simp [charListLe] at h1
        | cons y bs =>
          cases cs with
          | nil => simp [charListLe] at h2
          | cons z cs =>
            by_cases hxy : x = y
            · subst hxy
              simp only [charListLe, if_pos rfl] at h1
              by_cases hxz : x = z
              · subst hxz
                simp only [charListLe, if_pos rfl] at h2 ⊢
                exact ih bs cs h1 h2
              · simp only [charListLe, if_neg hxz] at h2 ⊢
                exact h2
            · simp only [charListLe, if_neg hxy, decide_eq_true_eq] at h1
              by_cases hyz : y = z
              · subst hyz
                simp only [charListLe, if_neg hxy, decide_eq_true_eq]
                exact h1
              · simp only [charListLe, if_neg hyz, decide_eq_true_eq] at h2
                have hxz : x < z := lt_trans h1 h2
                simp [charListLe, ne_of_lt hxz, hxz]
    exact h a.data b.data c.data hab hbc

instance : IsAntisymm String strLeR where
  antisymm a b hab hba := by
    have h : ∀ as bs : List Char, charListLe as bs = true →
        charListLe bs as = true → as = bs := by
      intro as
      induction as with
      | nil =>
        intro bs h1 h2
        cases bs with
        | nil => rfl
        | cons b bs => simp [charListLe] at h2
      | cons a as ih =>
        intro bs h1 h2
        cases bs with
        | nil => simp [charListLe] at h1
        | cons b bs =>
          by_cases hab2 : a = b
          · subst hab2
            simp only [charListLe, if_pos rfl] at h1 h2
            exact congrArg (a :: ·) (ih bs h1 h2)
          · simp only [charListLe, if_neg hab2, decide_eq_true_eq] at h1
            simp only [charListLe, if_neg (Ne.symm hab2), decide_eq_true_eq] at h2
            exact absurd h2 (lt_asymm h1)
    exact congrArg String.mk (h a.data b.data hab hba)

/-- filepath.Abs may fail; cindex main lines 345-353 replace a failing
argument with the empty string and keep going. -/
def absOrEmpty (abs : String → Option String) (a : String) : String :=
  (abs a).getD ""

/-- cindex main lines 343-358: make every argument absolute (failures
become the empty string), sort lexicographically with sort.Strings, then
drop the leading empty strings.  The resulting list is the order in which
the roots are walked. -/
def cindexProcessArgs (abs : String → Option String) (args : List String) :
    List String :=
  (List.insertionSort strLeR (args.map (absOrEmpty abs))).dropWhile
    (fun a => decide (a = ""))

/-- cindex main lines 335-341: with no path arguments (after -filelist
handling) the root paths stored in the existing index become the
arguments. -/
def cindexResolveArgs (indexPaths : List String) (args : List String) :
    List String :=
  if args.isEmpty then indexPaths else args

/-- What a cindex invocation decides to do after flag handling. -/
inductive CindexMode
  | removeIndex
  | build (roots : List String)
deriving DecidableEq, Repr

/-- cindex main lines 284-296 and 335-358: -reset with no arguments removes
the index and exits; otherwise the walked roots are the processed argument
list, defaulting to the stored path list of the existing index. -/
def cindexDispatch (abs : String → Option String) (indexPaths : List String)
    (reset : Bool) (args : List String) : CindexMode :=
  if reset && args.isEmpty then CindexMode.removeIndex
  else CindexMode.build (cindexProcessArgs abs (cindexResolveArgs indexPaths args))

/-- A file system modelled as an association list from path to file
content. -/
abbrev FsState := List (String × String)

/-- Remove a path (os.Remove). -/
def fsRemove (s : FsState) (p : String) : FsState :=
  s.filter (fun e => decide (e.1 ≠ p))

/-- Create or replace the file at a path. -/
def fsWrite (s : FsState) (p c : String) : FsState :=
  (p, c) :: fsRemove s p

/-- Content of the file at a path, if present. -/
def fsGet (s : FsState) (p : String) : Option String :=
  (s.find? (fun e => decide (e.1 = p))).map (fun e => e.2)

/-- File system operations performed by the tail of cindex main. -/
inductive FsOp
  | write (p c : String)
  | remove (p : String)
  | rename (src dst : String)
deriving DecidableEq, Repr

/-- One operation applied to a state; rename moves the source content over
the destination in a single atomic step (os.Rename). -/
def fsApply (s : FsState) : FsOp → FsState
  | FsOp.write p c => fsWrite s p c
  | FsOp.remove p => fsRemove s p
  | FsOp.rename src dst =>
    match fsGet s src with
    | some c => fsWrite (fsRemove s src) dst c
    | none => s

/-- cindex main lines 444-452, the non-reset tail after Flush: with
file = master + "~" holding the freshly flushed index, Merge writes the
merged index to file + "~" (that is master + "~~"), then file and the old
master are removed and master + "~~" is renamed onto master. -/
def mergeSealOps (master : String) : List FsOp :=
  [FsOp.write (master ++ "~~") "merged",
   FsOp.remove (master ++ "~"),
   FsOp.remove master,
   FsOp.rename (master ++ "~~") master]

/-- The sequence of file system states a concurrent reader can observe
during the non-reset seal, starting just after Flush: the old master is
present and the flushed (unmerged) new index sits at master + "~". -/
def sealStates (master : String) : List FsState :=
  List.scanl fsApply [(master, "old"), (master ++ "~", "flushed")]
    (mergeSealOps master)

/-- Base name of a path: the suffix after the final separator, as
filepath.Split computes it. -/
def baseNameChars (s : List Char) : List Char :=
  (s.reverse.takeWhile (fun c => decide (c ≠ '/'))).reverse

/-- Glob matching as filepath.Match behaves on base names (which contain no
separator): a star matches any suffix split, a question mark any single
character, anything else itself.  Character classes and escapes are not
used by any pattern the claims mention. -/
def globMatch : List Char → List Char → Bool
  | [], s => s.isEmpty
  | '*' :: ps, s => s.tails.any (fun t => globMatch ps t)
  | '?' :: ps, s =>
    match s with
    | [] => false
    | _ :: cs => globMatch ps cs
  | p :: ps, s =>
    match s with
    | [] => false
    | c :: cs => p == c && globMatch ps cs

/-- cindex main lines 112-115: the built-in exclude pattern list; -exclude
only ever appends to it (line 312). -/
def defaultExcludePatterns : List String :=
  [".csearchindex"]

/-- What the walker knows about a directory entry (os.FileInfo). -/
inductive FileInfo
  | dir
  | regular
  | symlink
  | other
deriving DecidableEq, Repr

/-- The externally visible outcome of one filepath.Walk callback
invocation in cindex walk: prune the directory, skip the entry, recurse
into a resolved symlink, or send the entry to the indexing channel. -/
inductive WalkAction
  | skipDirectory
  | skipEntry
  | followSymlink
  | send (rootNo : Int) (path : String)
deriving DecidableEq, Repr

/-- Go string slicing path[n:], used for symlink-relative names. -/
def stringDrop (s : String) (n : Nat) : String :=
  String.mk (s.data.drop n)

/-- cindex walk lines 205-244, the tail of the callback after the exclusion
and symlink handling: on error skip; only plain regular files
(Mode()&ModeType == 0) are sent to the indexing channel, under the walk
root number, or under root -1 with the symlink-adjusted name. -/
def walkEntryTail (symlinkFrom arg : String) (rootNo : Int) (path : String)
    (info : Option FileInfo) (hasErr : Bool) : WalkAction :=
  if hasErr then WalkAction.skipEntry
  else
    match info with
    | some FileInfo.regular =>
      if symlinkFrom = "" then WalkAction.send rootNo path
      else WalkAction.send (-1) (symlinkFrom ++ stringDrop path arg.length)
    | _ => WalkAction.skipEntry

/-- cindex walk lines 137-244: the body of the filepath.Walk callback.  For
an entry with a non-empty base name, the name is matched against every
exclude pattern; an excluded directory is pruned, an excluded non-directory
is skipped before the symlink handling runs; a surviving symlink is either
skipped (-no-follow-symlinks) or recursed into; everything else falls
through to the tail. -/
def walkEntry (patterns : List String) (noFollow : Bool)
    (symlinkFrom arg : String) (rootNo : Int) (path : String)
    (info : Option FileInfo) (hasErr : Bool) : WalkAction :=
  let elem := baseNameChars path.data
  if elem ≠ [] then
    let exclude := patterns.any (fun pat => globMatch pat.data elem)
    if info = some FileInfo.dir then
      if exclude then WalkAction.skipDirectory
      else walkEntryTail symlinkFrom arg rootNo path info hasErr
    else
      if exclude then WalkAction.skipEntry
      else if info = some FileInfo.symlink then
        if noFollow then WalkAction.skipEntry else WalkAction.followSymlink
      else walkEntryTail symlinkFrom arg rootNo path info hasErr
  else walkEntryTail symlinkFrom arg rootNo path info hasErr

/-- cindex main lines 390-414: the single consumer goroutine.  It reads
(rootNo, path) pairs from the walk channel in order, stops at the empty
sentinel path, and calls AddFile exactly when the path has not been seen;
the returned list is the sequence of AddFile invocations. -/
def consumerCalls : List (Int × String) → List String → List (Int × String)
  | [], _ => []
  | (root, path) :: rest, seen =>
    if path = "" then []
    else if path ∈ seen then consumerCalls rest seen
    else (root, path) :: consumerCalls rest (path :: seen)

/-! ## Helper lemmas -/

theorem string_ne_self_append (s t : String) (ht : 0 < t.length) : s ≠ s ++ t := by
  intro h
  have h2 := congrArg String.length h
  rw [String.length_append] at h2
  omega

theorem string_append_ne_of_length_ne (s t u : String) (h : t.length ≠ u.length) :
    s ++ t ≠ s ++ u := by
  intro he
  have h2 := congrArg String.length he
  rw [String.length_append, String.length_append] at h2
  omega

theorem dropWhile_empty_eq_self (l : List String) (h : ∀ a ∈ l, a ≠ "") :
    l.dropWhile (fun a => decide (a = "")) = l := by
  cases l with
  | nil => rfl
  | cons a as =>
    have ha : decide (a = "") = false := decide_eq_false (h a (List.mem_cons_self a as))
    simp [List.dropWhile_cons, ha]

/-! ## Claim theorems -/

/-- Claim C1 (code bug): exit statuses of csearch.  In the default
multi-worker mode the worker value copies find and print the match
(Grep.Match is true in the worker), but the package-level matches variable
is assigned only in the -1 branch of Main, so main exits 1 even though a
match was found and printed; under -1 the same single matching file makes
csearch exit 0, and cgrep exits 0 on a match and 1 on none, as the claim
states. -/
theorem csearch_multiworker_exit_code_bug :
    (runMulti { maxCount := 0, printed := 0, Match := false, Done := false } [[1]]).map Grep.Match = [true] ∧
    csearchExit false { maxCount := 0, printed := 0, Match := false, Done := false } [] [[1]] = 1 ∧
    csearchExit true { maxCount := 0, printed := 0, Match := false, Done := false } [1] [] = 0 ∧
    csearchExit true { maxCount := 0, printed := 0, Match := false, Done := false } [0] [] = 1 ∧
    cgrepExit { maxCount := 0, printed := 0, Match := false, Done := false } [1] = 0 ∧
    cgrepExit { maxCount := 0, printed := 0, Match := false, Done := false } [0] = 1 := by
  decide

/-- Claim C4: csearch rejects -c together with -l, a positive -M together
with -l, and a positive -M together with -c as usage errors: Main emits
usage and exits with status 2, and the index-opening event never occurs on
those paths. -/
theorem csearch_usage_error_combinations (m : Int) (hm : 0 < m) :
    csearchControl 1 true true 0 = [CsearchEvent.exitUsage 2] ∧
    csearchControl 1 true false m = [CsearchEvent.exitUsage 2] ∧
    csearchControl 1 false true m = [CsearchEvent.exitUsage 2] ∧
    CsearchEvent.openIndex ∉ csearchControl 1 true true 0 ∧
    CsearchEvent.openIndex ∉ csearchControl 1 true false m ∧
    CsearchEvent.openIndex ∉ csearchControl 1 false true m := by
  have hd : decide (0 < m) = true := decide_eq_true hm
  refine ⟨by decide, ?_, ?_, by decide, ?_, ?_⟩ <;>
    simp [csearchControl, csearchUsageError, hd]

/-- Witness for C4 at the concrete per-file limit 1. -/
theorem csearch_usage_error_combinations_witness :
    (0 : Int) < 1 ∧
    (csearchControl 1 true true 0 = [CsearchEvent.exitUsage 2] ∧
     csearchControl 1 true false 1 = [CsearchEvent.exitUsage 2] ∧
     csearchControl 1 false true 1 = [CsearchEvent.exitUsage 2] ∧
     CsearchEvent.openIndex ∉ csearchControl 1 true true 0 ∧
     CsearchEvent.openIndex ∉ csearchControl 1 true false 1 ∧
     CsearchEvent.openIndex ∉ csearchControl 1 false true 1) :=
  ⟨by decide, csearch_usage_error_combinations 1 (by decide)⟩

/-- Claim C7: the Windows mmap helper passes the full 64-bit size to
CreateFileMapping as the pair uint32(size shifted right by 32) and
uint32(size), so the two halves reassemble to the exact size for every
int64 file size (in particular sizes above 1 GiB), and a zero size returns
an empty mapping without calling the platform API. -/
theorem mmap_passes_full_size (size : Nat) (h : size < 2 ^ 63) :
    mmapFileCall 0 = MmapCall.emptyNoApiCall ∧
    (0 < size →
      mmapFileCall size =
        MmapCall.createFileMapping (size / 2 ^ 32) (size % 2 ^ 32) ∧
      size / 2 ^ 32 * 2 ^ 32 + size % 2 ^ 32 = size) := by
  refine ⟨rfl, fun hpos => ⟨?_, ?_⟩⟩
  · unfold mmapFileCall
    rw [if_neg (Nat.pos_iff_ne_zero.mp hpos)]
    have hs : size >>> 32 = size / 2 ^ 32 := Nat.shiftRight_eq_div_pow size 32
    have hlt : size / 2 ^ 32 < 2 ^ 32 := by
      have : size / 2 ^ 32 < 2 ^ 31 := by
        rw [Nat.div_lt_iff_lt_mul (by norm_num : 0 < 2 ^ 32)]
        calc size < 2 ^ 63 := h
        _ = 2 ^ 31 * 2 ^ 32 := by norm_num
      exact lt_trans this (by norm_num)
    rw [hs, Nat.mod_eq_of_lt hlt]
  · rw [Nat.mul_comm]
    exact Nat.div_add_mod size (2 ^ 32)

/-- Witness for C7 at a 2 GiB + 5 bytes file. -/
theorem mmap_passes_full_size_witness :
    ((2 : Nat) ^ 31 + 5 < 2 ^ 63) ∧
    (mmapFileCall 0 = MmapCall.emptyNoApiCall ∧
     (0 < (2 : Nat) ^ 31 + 5 →
       mmapFileCall (2 ^ 31 + 5) =
         MmapCall.createFileMapping ((2 ^ 31 + 5) / 2 ^ 32) ((2 ^ 31 + 5) % 2 ^ 32) ∧
       (2 ^ 31 + 5) / 2 ^ 32 * 2 ^ 32 + (2 ^ 31 + 5) % 2 ^ 32 = 2 ^ 31 + 5)) :=
  ⟨by norm_num, mmap_passes_full_size (2 ^ 31 + 5) (by norm_num)⟩

/-- Claim C8: the pattern handed to regexp.Compile by both csearch and
cgrep is the user regexp prefixed with the multi-line flag string, and
additionally with the case-insensitive flag string when -i is given; the
two programs build the pattern identically. -/
theorem compiled_pattern_always_multiline (arg : String) :
    csearchCompiledPat false arg = "(?m)" ++ arg ∧
    csearchCompiledPat true arg = "(?i)" ++ ("(?m)" ++ arg) ∧
    (∀ i : Bool, cgrepCompiledPat i arg = csearchCompiledPat i arg) := by
  refine ⟨rfl, rfl, fun i => ?_⟩
  cases i <;> rfl

theorem printLine_inv (m : Nat) (g : Grep) (hmc : g.maxCount = m)
    (hlt : g.printed < m) :
    g.printLine.maxCount = m ∧ g.printLine.printed ≤ m ∧
    (m ≤ g.printLine.printed → g.printLine.Done = true) := by
  unfold Grep.printLine
  refine ⟨hmc, by simp; omega, fun hle => ?_⟩
  simp only at hle ⊢
  have h1 : decide (0 < g.maxCount) = true := decide_eq_true (by omega)
  have h2 : decide (g.maxCount ≤ g.printed + 1) = true := decide_eq_true (by omega)
  simp [h1, h2]

theorem scanLines_inv (m : Nat) (_hm : 0 < m) :
    ∀ (n : Nat) (g : Grep), g.maxCount = m → g.printed ≤ m →
      (m ≤ g.printed → g.Done = true) →
      (Grep.scanLines g n).maxCount = m ∧ (Grep.scanLines g n).printed ≤ m ∧
      (m ≤ (Grep.scanLines g n).printed → (Grep.scanLines g n).Done = true) := by
  intro n
  induction n with
  | zero => intro g h1 h2 h3; exact ⟨h1, h2, h3⟩
  | succ k ih =>
    intro g h1 h2 h3
    simp only [Grep.scanLines]
    by_cases hd : g.Done = true
    · rw [if_pos hd]; exact ⟨h1, h2, h3⟩
    · rw [if_neg hd]
      have hlt : g.printed < m := by
        rcases Nat.lt_or_ge g.printed m with hc | hc
        · exact hc
        · exact absurd (h3 hc) hd
      obtain ⟨p1, p2, p3⟩ := printLine_inv m g h1 hlt
      exact ih g.printLine p1 p2 p3

theorem runWorker_inv (m : Nat) (hm : 0 < m) (files : List Nat) :
    ∀ g : Grep, g.maxCount = m → g.printed ≤ m →
      (m ≤ g.printed → g.Done = true) →
      (runWorker g files).maxCount = m ∧ (runWorker g files).printed ≤ m ∧
      (m ≤ (runWorker g files).printed → (runWorker g files).Done = true) := by
  induction files with
  | nil => intro g h1 h2 h3; exact ⟨h1, h2, h3⟩
  | cons f rest ih =>
    intro g h1 h2 h3
    have hstep := scanLines_inv m hm f g h1 h2 h3
    exact ih (g.File f) hstep.1 hstep.2.1 hstep.2.2

theorem runOneThread_inv (m : Nat) (hm : 0 < m) (files : List Nat) :
    ∀ g : Grep, g.maxCount = m → g.printed ≤ m →
      (m ≤ g.printed → g.Done = true) →
      (runOneThread g files).printed ≤ m := by
  induction files with
  | nil => intro g _ h2 _; exact h2
  | cons f rest ih =>
    intro g h1 h2 h3
    have hstep := scanLines_inv m hm f g h1 h2 h3
    simp only [runOneThread]
    by_cases hd : (g.File f).Done = true
    · rw [if_pos hd]; exact hstep.2.1
    · rw [if_neg hd]
      exact ih (g.File f) hstep.1 hstep.2.1 hstep.2.2

/-- Claim C3 fails on the code: with -m 1 and two workers each handed one
matching file, both workers print a match (2 printed with a global limit
of 1), because each worker runs on its own value copy of the Grep: the
Done flag tripped inside one worker is never observed by the other, and
the multi-worker loops of Main never consult Done at all.  Under -1 the
same two files stop after the first match, as the claim describes. -/
theorem grep_done_not_shared_counterexample :
    totalPrinted (runMulti
      { maxCount := 1, printed := 0, Match := false, Done := false } [[1], [1]]) = 2 ∧
    ¬ totalPrinted (runMulti
      { maxCount := 1, printed := 0, Match := false, Done := false } [[1], [1]]) ≤ 1 ∧
    runOneThread { maxCount := 1, printed := 0, Match := false, Done := false } [1, 1] =
      { maxCount := 1, printed := 1, Match := true, Done := true } := by
  decide

/-- Claim C3 amended: the -m limit sets Done on the Grep value that
tripped it, observed at line boundaries, so under -1 the single driver
never prints more than the limit and stops consuming files; in
multi-worker mode each worker holds an independent value copy of the
Grep, so the Done flag is not shared: each individual worker stays within
the limit, but the trip is per worker, not global. -/
theorem grep_limit_per_grep_copy (g : Grep) (m : Nat) (files : List Nat)
    (assignment : List (List Nat)) (hm : 0 < m) (h1 : g.maxCount = m)
    (h2 : g.printed = 0) :
    (runOneThread g files).printed ≤ m ∧
    ∀ w ∈ runMulti g assignment, w.printed ≤ m := by
  have h2' : g.printed ≤ m := by omega
  have h3 : m ≤ g.printed → g.Done = true := fun hc => absurd (h2 ▸ hc) (by omega)
  refine ⟨runOneThread_inv m hm files g h1 h2' h3, fun w hw => ?_⟩
  obtain ⟨fs, _, rfl⟩ := List.mem_map.mp hw
  exact (runWorker_inv m hm fs g h1 h2' h3).2.1

/-- Witness for the amended C3 at limit 2, files of 1 and 3 matching
lines. -/
theorem grep_limit_per_grep_copy_witness :
    0 < 2 ∧
    Grep.maxCount { maxCount := 2, printed := 0, Match := false, Done := false } = 2 ∧
    Grep.printed { maxCount := 2, printed := 0, Match := false, Done := false } = 0 ∧
    ((runOneThread { maxCount := 2, printed := 0, Match := false, Done := false }
        [1, 3]).printed ≤ 2 ∧
     ∀ w ∈ runMulti { maxCount := 2, printed := 0, Match := false, Done := false }
        [[1, 1], [3]], w.printed ≤ 2) :=
  ⟨by decide, by decide, by decide,
    grep_limit_per_grep_copy
      { maxCount := 2, printed := 0, Match := false, Done := false }
      2 [1, 3] [[1, 1], [3]] (by decide) (by decide) (by decide)⟩

/-- Claim C2 fails on the code: with master path "idx" the merged index is
written by Merge to "idx~~" (not to "idx~", which holds the unmerged
freshly flushed index), and the old master is explicitly removed before
the rename, so the state sequence contains a state in which the master
path is absent; the final state does hold the merged index at the master
path. -/
theorem seal_not_atomic_counterexample :
    mergeSealOps "idx" = [FsOp.write "idx~~" "merged", FsOp.remove "idx~",
      FsOp.remove "idx", FsOp.rename "idx~~" "idx"] ∧
    (∃ s ∈ sealStates "idx", fsGet s "idx" = none) ∧
    fsGet ((sealStates "idx").getLastD []) "idx" = some "merged" := by
  decide

theorem seal_trace (master : String) :
    sealStates master = [
      [(master, "old"), (master ++ "~", "flushed")],
      [(master ++ "~~", "merged"), (master, "old"), (master ++ "~", "flushed")],
      [(master ++ "~~", "merged"), (master, "old")],
      [(master ++ "~~", "merged")],
      [(master, "merged")]] := by
  have hne1 : master ≠ master ++ "~" := string_ne_self_append master "~" (by decide)
  have hne2 : master ≠ master ++ "~~" := string_ne_self_append master "~~" (by decide)
  have hne3 : master ++ "~" ≠ master ++ "~~" :=
    string_append_ne_of_length_ne master "~" "~~" (by decide)
  simp [sealStates, mergeSealOps, List.scanl, fsApply, fsWrite, fsRemove, fsGet,
    hne1, hne2, hne3, Ne.symm hne1, Ne.symm hne2, Ne.symm hne3]

/-- Claim C2 amended: on a successful non-reset build the freshly flushed
index sits at master + "~", the merged index is written to master + "~~",
then master + "~" and the old master are removed and master + "~~" is
renamed onto the master path.  The master path never holds a partially
written index (its content is only ever the old or the fully merged one,
and the final state holds the merged one), but between the remove and the
rename there is a state in which the master path is absent. -/
theorem seal_rename_after_merge (master : String) :
    (∀ s ∈ sealStates master, ∀ c, fsGet s master = some c →
      c = "old" ∨ c = "merged") ∧
    fsGet ((sealStates master).getLastD []) master = some "merged" ∧
    (∃ s ∈ sealStates master, fsGet s master = none) ∧
    (mergeSealOps master).getLastD (FsOp.remove "") =
      FsOp.rename (master ++ "~~") master := by
  have hne2 : master ≠ master ++ "~~" := string_ne_self_append master "~~" (by decide)
  have htr := seal_trace master
  refine ⟨?_, ?_, ?_, rfl⟩
  · rw [htr]
    intro s hs c hc
    simp only [List.mem_cons, List.not_mem_nil, or_false] at hs
    rcases hs with rfl | rfl | rfl | rfl | rfl <;>
      simp [fsGet, List.find?, Ne.symm hne2] at hc <;> simp [hc]
  · rw [htr]
    simp [fsGet, List.find?]
  · rw [htr]
    refine ⟨[(master ++ "~~", "merged")], by simp, ?_⟩
    simp [fsGet, List.find?, Ne.symm hne2]

/-- Claim C5: invoked with no path arguments (and without -reset), cindex
resolves its argument list from the root paths stored in the existing
index, and the processed root list it walks is exactly that path set (as a
permutation: the stored absolute paths are fixed by filepath.Abs and only
reordered by the sort). -/
theorem cindex_noargs_reindexes_stored_roots (abs : String → Option String)
    (indexPaths : List String)
    (habs : ∀ p ∈ indexPaths, abs p = some p)
    (hne : ∀ p ∈ indexPaths, p ≠ "") :
    ∃ roots : List String,
      cindexDispatch abs indexPaths false [] = CindexMode.build roots ∧
      List.Perm roots indexPaths := by
  refine ⟨cindexProcessArgs abs (cindexResolveArgs indexPaths []), rfl, ?_⟩
  unfold cindexProcessArgs cindexResolveArgs
  simp only [List.isEmpty_nil, if_pos]
  have hmap : indexPaths.map (absOrEmpty abs) = indexPaths := by
    have h1 : indexPaths.map (absOrEmpty abs) = indexPaths.map id :=
      List.map_congr_left (fun a ha => by simp [absOrEmpty, habs a ha])
    rw [h1, List.map_id]
  rw [hmap]
  have hperm := List.perm_insertionSort strLeR indexPaths
  have hmem : ∀ a ∈ List.insertionSort strLeR indexPaths, a ≠ "" :=
    fun a ha => hne a (hperm.mem_iff.mp ha)
  rw [dropWhile_empty_eq_self _ hmem]
  exact hperm

/-- Witness for C5 with two stored roots. -/
theorem cindex_noargs_reindexes_stored_roots_witness :
    (∀ p ∈ (["/b", "/a"] : List String), (fun s => some s) p = some p) ∧
    (∀ p ∈ (["/b", "/a"] : List String), p ≠ "") ∧
    ∃ roots : List String,
      cindexDispatch (fun s => some s) ["/b", "/a"] false [] =
        CindexMode.build roots ∧
      List.Perm roots ["/b", "/a"] :=
  ⟨by decide, by decide,
    cindex_noargs_reindexes_stored_roots (fun s => some s) ["/b", "/a"]
      (by decide) (by decide)⟩

/-- Claim C6: the root order cindex walks is canonical: making the
arguments absolute and sorting them lexicographically erases any
difference in argument order, so two -reset builds over the same path set
hand the identical root list, in the identical order, to the identical
deterministic build pipeline, which therefore produces byte-identical
output. -/
theorem cindex_root_order_canonical {β : Type} (build : List String → β)
    (abs : String → Option String) (args1 args2 : List String)
    (h : List.Perm args1 args2) :
    cindexProcessArgs abs args1 = cindexProcessArgs abs args2 ∧
    build (cindexProcessArgs abs args1) = build (cindexProcessArgs abs args2) := by
  have hperm : List.Perm (args1.map (absOrEmpty abs)) (args2.map (absOrEmpty abs)) :=
    h.map _
  have hsorted : List.insertionSort strLeR (args1.map (absOrEmpty abs)) =
      List.insertionSort strLeR (args2.map (absOrEmpty abs)) :=
    List.eq_of_perm_of_sorted
      (((List.perm_insertionSort _ _).trans hperm).trans
        (List.perm_insertionSort _ _).symm)
      (List.sorted_insertionSort _ _) (List.sorted_insertionSort _ _)
  have heq : cindexProcessArgs abs args1 = cindexProcessArgs abs args2 := by
    unfold cindexProcessArgs
    rw [hsorted]
  exact ⟨heq, congrArg build heq⟩

/-- Witness for C6: the same two roots given in either order produce the
same processed root list. -/
theorem cindex_root_order_canonical_witness :
    List.Perm ["/y", "/x"] ["/x", "/y"] ∧
    (cindexProcessArgs (fun s => some s) ["/y", "/x"] =
      cindexProcessArgs (fun s => some s) ["/x", "/y"] ∧
     (fun l : List String => l) (cindexProcessArgs (fun s => some s) ["/y", "/x"]) =
      (fun l : List String => l) (cindexProcessArgs (fun s => some s) ["/x", "/y"])) :=
  ⟨by decide,
    cindex_root_order_canonical (fun l => l) (fun s => some s)
      ["/y", "/x"] ["/x", "/y"] (by decide)⟩

/-- Claim C9: in every cindex build, an entry whose base name matches the
built-in pattern ".csearchindex" is excluded from the walk — a matching
directory is pruned, a matching file is skipped before the symlink
handling runs — and is never sent to the indexing channel, hence never
reaches AddFile, whatever extra patterns -exclude appended. -/
theorem walk_excludes_csearchindex (extra : List String) (noFollow : Bool)
    (symlinkFrom arg : String) (rootNo : Int) (path : String)
    (info : Option FileInfo) (hasErr : Bool)
    (hmatch : globMatch ".csearchindex".data (baseNameChars path.data) = true) :
    (walkEntry (defaultExcludePatterns ++ extra) noFollow symlinkFrom arg
        rootNo path info hasErr = WalkAction.skipDirectory ∨
     walkEntry (defaultExcludePatterns ++ extra) noFollow symlinkFrom arg
        rootNo path info hasErr = WalkAction.skipEntry) ∧
    ∀ r p, walkEntry (defaultExcludePatterns ++ extra) noFollow symlinkFrom arg
        rootNo path info hasErr ≠ WalkAction.send r p := by
  by_cases helem : baseNameChars path.data = []
  · rw [helem] at hmatch
    exact absurd hmatch (by decide)
  · have hex : (defaultExcludePatterns ++ extra).any
        (fun pat => globMatch pat.data (baseNameChars path.data)) = true := by
      simp [defaultExcludePatterns, hmatch]
    have hstep : walkEntry (defaultExcludePatterns ++ extra) noFollow symlinkFrom arg
        rootNo path info hasErr =
        if info = some FileInfo.dir then WalkAction.skipDirectory
        else WalkAction.skipEntry := by
      unfold walkEntry
      rw [if_pos helem]
      by_cases hdir : info = some FileInfo.dir
      · rw [if_pos hdir, if_pos hex, if_pos hdir]
      · rw [if_neg hdir, if_pos hex, if_neg hdir]
    rw [hstep]
    by_cases hdir : info = some FileInfo.dir
    · rw [if_pos hdir]
      exact ⟨Or.inl rfl, fun r p => by simp⟩
    · rw [if_neg hdir]
      exact ⟨Or.inr rfl, fun r p => by simp⟩

/-- Witness for C9: a regular file named .csearchindex inside the walked
root, with an extra exclude pattern loaded. -/
theorem walk_excludes_csearchindex_witness :
    globMatch ".csearchindex".data (baseNameChars "/r/.csearchindex".data) = true ∧
    ((walkEntry (defaultExcludePatterns ++ ["*.bak"]) false "" "/r" 0
        "/r/.csearchindex" (some FileInfo.regular) false = WalkAction.skipDirectory ∨
      walkEntry (defaultExcludePatterns ++ ["*.bak"]) false "" "/r" 0
        "/r/.csearchindex" (some FileInfo.regular) false = WalkAction.skipEntry) ∧
     ∀ r p, walkEntry (defaultExcludePatterns ++ ["*.bak"]) false "" "/r" 0
        "/r/.csearchindex" (some FileInfo.regular) false ≠ WalkAction.send r p) :=
  ⟨by decide,
    walk_excludes_csearchindex ["*.bak"] false "" "/r" 0 "/r/.csearchindex"
      (some FileInfo.regular) false (by decide)⟩

theorem consumerCalls_paths_nodup (items : List (Int × String)) :
    ∀ seen : List String,
      ((consumerCalls items seen).map Prod.snd).Nodup ∧
      ∀ p ∈ (consumerCalls items seen).map Prod.snd, p ∉ seen := by
  induction items with
  | nil => intro seen; simp [consumerCalls]
  | cons it rest ih =>
    intro seen
    obtain ⟨root, path⟩ := it
    simp only [consumerCalls]
    by_cases h0 : path = ""
    · simp [h0]
    · rw [if_neg h0]
      by_cases hseen : path ∈ seen
      · rw [if_pos hseen]; exact ih seen
      · rw [if_neg hseen]
        obtain ⟨ihnd, ihmem⟩ := ih (path :: seen)
        constructor
        · simp only [List.map_cons, List.nodup_cons]
          exact ⟨fun hmem => (ihmem path hmem) (List.mem_cons_self _ _), ihnd⟩
        · intro p hp
          simp only [List.map_cons, List.mem_cons] at hp
          rcases hp with rfl | hp
          · exact hseen
          · exact fun hpseen => (ihmem p hp) (List.mem_cons_of_mem _ hpseen)

/-- Claim C10: in one build the consumer calls AddFile at most once per
distinct path string: the sequence of paths handed to AddFile contains no
duplicate, whatever (root, path) pairs the walker emitted and in whatever
order, so no file can consume two file-ids. -/
theorem addFile_once_per_path (items : List (Int × String)) :
    ((consumerCalls items []).map Prod.snd).Nodup :=
  (consumerCalls_paths_nodup items []).1

end Codesearch
